import Mathlib

/-
  A verification development for the MongoLaunchPad orchestration core
  (fireworks/core/mongo_launchpad.py).

  Collections of the document store are modelled as Lean lists of documents in
  natural (insertion) order.  Atomic find-and-modify operations become pure
  functions from the collection to the updated collection; a single application
  of such a function is the model of one atomic step.  Machine-level details
  that the code does not depend on (BSON encoding, ObjectId layout) are
  abstracted: timestamps are integers ordered like the ISO-8601 strings the
  code compares, and the JSON round trip json.loads (json.dumps d) = d is
  modelled by letting the blob store hold the decoded value.
-/

/-! ### Generic list helpers (models of the store primitives) -/

/-- Replace the first element satisfying p by the document new
(model of a Mongo find_one_and_replace that matched). -/
def replaceFirst (p : α → Bool) (new : α) : List α → List α
  | [] => []
  | x :: xs => if p x then new :: xs else x :: replaceFirst p new xs

/-- Update the first element satisfying p in place
(model of a Mongo update_one / find_one_and_update write). -/
def updateFirst (p : α → Bool) (f : α → α) : List α → List α
  | [] => []
  | x :: xs => if p x then f x :: xs else x :: updateFirst p f xs

/-- find_one_and_replace with upsert=True: replace the first match, or append
the document when nothing matches. -/
def findOneAndReplaceUpsert (p : α → Bool) (new : α) (l : List α) : List α :=
  if l.any p then replaceFirst p new l else l ++ [new]

/-- Python sequence indexing: non-negative indices from the front, negative
indices from the back, None (out of range) exactly when
i >= len(l) or i < -len(l). -/
def pyIndex (l : List α) (i : Int) : Option α :=
  if i ≥ (l.length : Int) || i < -(l.length : Int) then none
  else if i ≥ 0 then l.get? i.toNat
  else l.get? ((l.length : Int) + i).toNat

/-- The document Mongo returns from a find with a sort: the first document,
in natural order, that no other matching document strictly precedes under the
sort comparator (ties are broken by natural order, i.e. the fold keeps the
earlier document on a tie). -/
def selectMin (lt : α → α → Bool) : List α → Option α
  | [] => none
  | x :: xs => some (xs.foldl (fun b d => if lt d b then d else b) x)

/-! ### JSON payloads -/

/-- JSON-serializable values: the shape of opaque spec payloads, tracker data
and FWAction dictionaries. -/
inductive Json where
  | null
  | bool (b : Bool)
  | num (n : Int)
  | str (s : String)
  | arr (xs : List Json)
  | obj (kvs : List (String × Json))

/-- Python truthiness of a JSON value (None, False, 0, "", [] and the empty
dict are falsy). -/
def pyFalsy : Json → Bool
  | .null => true
  | .bool b => !b
  | .num n => n == 0
  | .str s => s.isEmpty
  | .arr xs => xs.isEmpty
  | .obj kvs => kvs.isEmpty

mutual

/-- Size in bytes of the BSON encoding of a JSON value (a concrete executable
model of the quantity pymongo compares against the per-document limit). -/
def jsonSize : Json → Nat
  | .null => 4
  | .bool _ => 5
  | .num _ => 8
  | .str s => s.length + 2
  | .arr xs => 2 + jsonSizeList xs
  | .obj kvs => 2 + jsonSizeObj kvs

def jsonSizeList : List Json → Nat
  | [] => 0
  | x :: xs => jsonSize x + jsonSizeList xs

def jsonSizeObj : List (String × Json) → Nat
  | [] => 0
  | (k, v) :: xs => k.length + jsonSize v + jsonSizeObj xs

end

/-! ### Data model -/

/-- The serialized (dict) form of a firework spec, as seen by Mongo queries
and by dupefinder callbacks: the reserved keys the orchestrator reads, plus an
opaque user payload.  spec._fworker distinguishes a missing key (none), an
explicit null (some none) and a worker name (some (some w)). -/
structure SpecData where
  priority : Option Int
  fworker : Option (Option String)
  category : Option String
  hasDupefinder : Bool
  payload : Json

/-- A duplicate-finder descriptor (spec._dupefinder).  query produces the
Mongo query limiting the candidate set, modelled by the predicate it denotes
on serialized firework documents.  verify is the optional verification
capability: none models a dupefinder whose verify raises NotImplementedError
(the probe verify({}, {}) at line 964 then marks the candidate verified and
skips verification). -/
structure DupeFinder where
  query : SpecData → (SpecData → Bool)
  verify : Option (SpecData → SpecData → Bool)

/-- An in-memory firework spec: the serialized fields plus the deserialized
dupefinder object. -/
structure FwSpec where
  priority : Option Int
  fworker : Option (Option String)
  category : Option String
  dupefinder : Option DupeFinder
  payload : Json

/-- Serialization of a spec (the to_dict()["spec"] form handed to dupefinder
callbacks and stored in the fireworks collection). -/
def FwSpec.toData (s : FwSpec) : SpecData :=
  { priority := s.priority, fworker := s.fworker, category := s.category,
    hasDupefinder := s.dupefinder.isSome, payload := s.payload }

/-- A document of the fireworks collection. -/
structure FwDoc where
  fw_id : Nat
  state : String
  created_on : Int
  updated_on : Int
  spec : FwSpec
  launches : List Nat

/-- One entry of a launch state_history: the state entered and its timestamp
(isoformat strings compare exactly like the instants they encode, so the
timestamp is an integer). -/
structure HistEntry where
  state : String
  updated_on : Int
deriving DecidableEq

/-- The action field of a launch document: absent/None, an inline FWAction
dict, or the overflow reference dict that carries only a gridfs_id key. -/
inductive ActionField where
  | null
  | inline (a : Json)
  | gridfsRef (i : Nat)

/-- Python truthiness of the action field ({"gridfs_id": ...} is a non-empty
dict, hence truthy). -/
def falsyAction : ActionField → Bool
  | .null => true
  | .inline a => pyFalsy a
  | .gridfsRef _ => false

/-- The JSON value json.dumps serializes for an action field (used when the
payload overflows to the blob store). -/
def actionToJson : ActionField → Json
  | .null => .null
  | .inline a => a
  | .gridfsRef i => .obj [("gridfs_id", .str (toString i))]

/-- A document of the launches collection. -/
structure LaunchDoc where
  launch_id : Nat
  fw_id : Nat
  state : String
  state_history : List HistEntry
  trackers : List Json
  action : ActionField

/-- Size in bytes of a launch document (concrete executable model of the BSON
size pymongo checks against the store limit). -/
def launchDocSize (d : LaunchDoc) : Nat :=
  32 + d.state.length
     + (d.state_history.map (fun e => e.state.length + 16)).sum
     + jsonSizeList d.trackers
     + jsonSize (actionToJson d.action)

/-- The GridFS blob store: stored files keyed by ObjectId, plus the next fresh
id.  json.loads (json.dumps d) = d for every stored action dict, so the store
is modelled as holding the decoded JSON value. -/
structure GridFS where
  files : List (Nat × Json)
  next_id : Nat

/-- put(bytes, metadata) -> reference id: append the payload under a fresh
id. -/
def GridFS.put (g : GridFS) (j : Json) : Nat × GridFS :=
  (g.next_id, { files := g.files ++ [(g.next_id, j)], next_id := g.next_id + 1 })

/-- An in-memory Firework object: the document fields plus the addressed
launch.  The Firework class itself lives in fireworks/core/firework.py, which
is not under src/; its launches attribute is modelled from the spec, section 3:
"launches: ordered sequence of launch identifiers (one per attempt,
append-only)", so stealing a launch appends a reference (an id), never launch
content. -/
structure Firework where
  fw_id : Nat
  state : String
  created_on : Int
  updated_on : Int
  spec : FwSpec
  launches : List Nat
  launch : LaunchDoc
  launch_idx : Option Int

/-! ### get_action_from_gridfs (lines 1329-1351) -/

/-- Helper to obtain the correct FWAction dictionary of a launch: a falsy
action or an action without a gridfs_id key is returned as is; a gridfs
reference is fetched from the fallback store and decoded.  When fallback_fs is
None the attribute access on None raises, and a dangling reference raises
NoFile inside GridFS. -/
def get_action_from_gridfs (a : ActionField) (fallback_fs : Option GridFS) :
    Except String (Option Json) :=
  match a with
  | .null => .ok none
  | .inline j => .ok (some j)
  | .gridfsRef i =>
    match fallback_fs with
    | none => .error "AttributeError: NoneType has no attribute get"
    | some g =>
      match g.files.find? (fun e => e.1 == i) with
      | none => .error "gridfs.errors.NoFile"
      | some e => .ok (some e.2)

/-! ### worker_query (lines 154-177) -/

/-- The category entry of an fworker configuration dict: fworker.get('category')
may be absent (None), a string, or a list of category strings. -/
inductive PyCategory where
  | none
  | str (s : String)
  | list (l : List String)
deriving DecidableEq

/-- Python truthiness of the category entry. -/
def pyTruthyCategory : PyCategory → Bool
  | .none => false
  | .str s => !s.isEmpty
  | .list l => !l.isEmpty

/-- The shape of the caller-supplied Mongo query dict held in
fworker['query']: its plain (non-operator) keys denote a predicate on
documents, and the optional top-level operator keys are kept separate because
worker_query rearranges exactly those. -/
structure MongoQuery where
  plain : FwDoc → Bool
  andClauses : List (FwDoc → Bool)
  orClause : Option (List (FwDoc → Bool))

/-- Denotation of a query dict: all plain conditions hold, every clause of
'$and' holds, and, when present, some clause of '$or' holds. -/
def MongoQuery.matches (q : MongoQuery) (d : FwDoc) : Bool :=
  q.plain d && q.andClauses.all (fun c => c d) &&
    (match q.orClause with
     | none => true
     | some ors => ors.any (fun c => c d))

/-- The empty query dict. -/
def emptyMongoQuery : MongoQuery :=
  { plain := fun _ => true, andClauses := [], orClause := none }

/-- An fworker configuration (name, category, query). -/
structure FWorkerCfg where
  name : String
  category : PyCategory
  query : MongoQuery

/-- An '$or' list of clauses as a single clause. -/
def anyClause (cs : List (FwDoc → Bool)) : FwDoc → Bool :=
  fun d => cs.any (fun c => c d)

/-- worker_query: extend the fworker's base query with the worker-affinity
'$or' clause (spec._fworker absent, or explicitly null, or equal to this
worker's name; a Mongo equality test against None also matches a missing
field).  Line 169 then evaluates
category and isinstance(self.fworker.get('category'), six.string_types);
the module never imports six, so for every truthy category this raises
NameError before either category branch (lines 170-175) can run, and the
spec._category conditions are never added. -/
def worker_query (w : FWorkerCfg) : Except String MongoQuery :=
  let q := w.query
  let fworker_check : List (FwDoc → Bool) :=
    [fun d => d.spec.fworker == Option.none,
     fun d => d.spec.fworker == Option.none || d.spec.fworker == some Option.none,
     fun d => d.spec.fworker == some (some w.name)]
  let q : MongoQuery :=
    match q.orClause with
    | some ors =>
      { q with orClause := none,
               andClauses := q.andClauses ++ [anyClause ors, anyClause fworker_check] }
    | none => { q with orClause := some fworker_check }
  if pyTruthyCategory w.category then
    .error "NameError: name 'six' is not defined"
  else
    .ok q

/-! ### Checkout ordering (lines 593-598) -/

/-- Strict comparison of spec._priority values under the BSON sort order:
a missing or null priority sorts below every number. -/
def priLt : Option Int → Option Int → Bool
  | Option.none, Option.none => false
  | Option.none, some _ => true
  | some _, Option.none => false
  | some a, some b => a < b

/-- The created_on tie-break appended to the sort (lines 595-598): ascending
under the FIFO configuration, descending under FILO, and absent for any other
SORT_FWS value. -/
def tieLt (sort_fws : String) (a b : FwDoc) : Bool :=
  if sort_fws.toUpper == "FIFO" then decide (a.created_on < b.created_on)
  else if sort_fws.toUpper == "FILO" then decide (b.created_on < a.created_on)
  else false

/-- The checkout sort: spec._priority descending, then the configured
created_on tie-break. -/
def sortLt (sort_fws : String) (a b : FwDoc) : Bool :=
  if priLt b.spec.priority a.spec.priority then true
  else if priLt a.spec.priority b.spec.priority then false
  else tieLt sort_fws a b

/-- A caller query dict handed to _get_a_fw_to_run: the possible 'state' key
is kept separate because the checkout overwrites exactly that key. -/
structure CallerQuery where
  other : FwDoc → Bool
  state : Option String

/-- Denotation of a caller query dict. -/
def CallerQuery.matches (q : CallerQuery) (d : FwDoc) : Bool :=
  q.other d &&
    (match q.state with
     | none => true
     | some s => d.state == s)

/-- The empty caller query. -/
def emptyCallerQuery : CallerQuery := { other := fun _ => true, state := none }

/-- The store's atomic find-one-and-update on the fireworks collection: pick
the first matching document under the sort, apply the update to it, and
return the pre-update document (pymongo's default return).  The fireworks
collection has a unique index on fw_id (tuneup, line 521), so the matched
document is addressed by its fw_id. -/
def findOneAndUpdateFws (fws : List FwDoc) (q : FwDoc → Bool)
    (lt : FwDoc → FwDoc → Bool) (f : FwDoc → FwDoc) : Option FwDoc × List FwDoc :=
  match selectMin lt (fws.filter q) with
  | none => (none, fws)
  | some d => (some d, updateFirst (fun x => x.fw_id == d.fw_id) f fws)

/-! ### Materializing a Firework (get_fw_dict_by_id, lines 309-373) -/

/-- Firework.from_dict lives in fireworks/core/firework.py, outside src/;
building the object from the document plus the addressed launch is modelled
from the spec, section 3 (a Firework carries its document fields and the
ordered sequence of launch identifiers). -/
def mkFirework (d : FwDoc) (l : LaunchDoc) (idx : Option Int) : Firework :=
  { fw_id := d.fw_id, state := d.state, created_on := d.created_on,
    updated_on := d.updated_on, spec := d.spec, launches := d.launches,
    launch := l, launch_idx := idx }

/-- Python's resolution of a (possibly negative) sequence index against a
length (line 341). -/
def pyResolveIdx (n : Nat) (i : Int) : Int := if i ≥ 0 then i else (n : Int) + i

/-- Re-wrap the dictionary returned by get_action_from_gridfs as the launch's
action field (line 345). -/
def actionOfOpt : Option Json → ActionField
  | none => .null
  | some j => .inline j

/-- get_fw_by_id: materialize a full Firework from the store, following
get_fw_dict_by_id (lines 350-373) and the launch_idx branch of
_get_launch_by_fw_id (lines 333-347).  The launch is fetched only when
launch_idx is truthy and the state is past WAITING/READY; a firework without
launches gets the placeholder launch holding only its state; the launch's
action is resolved through the gridfs fallback. -/
def get_fw_by_id (fws : List FwDoc) (ls : List LaunchDoc) (gfs : Option GridFS)
    (fw_id : Nat) (launch_idx : Int := -1) : Except String Firework :=
  match fws.find? (fun d => d.fw_id == fw_id) with
  | none => .error "No Firework exists with id"
  | some fw_dict =>
    let placeholder : LaunchDoc :=
      { launch_id := 0, fw_id := fw_id, state := fw_dict.state,
        state_history := [], trackers := [], action := .null }
    if launch_idx != 0 && fw_dict.state != "WAITING" && fw_dict.state != "READY" then
      let launch_ids := fw_dict.launches
      if launch_ids.isEmpty then .ok (mkFirework fw_dict placeholder none)
      else
        match pyIndex launch_ids launch_idx with
        | none => .error "Bad launch index"
        | some lid =>
          match ls.find? (fun l => l.launch_id == lid) with
          | none => .error "TypeError: launch document is missing"
          | some launch =>
            match get_action_from_gridfs launch.action gfs with
            | .error e => .error e
            | .ok a =>
              let launch := { launch with action := actionOfOpt a }
              let resolved : Int := pyResolveIdx launch_ids.length launch_idx
              .ok (mkFirework fw_dict launch (some resolved))
    else .ok (mkFirework fw_dict placeholder none)

/-! ### Duplicate detection (_steal_launches, lines 942-988) -/

/-- Whether a potential match counts as verified (lines 961-976): a
dupefinder without a verify implementation counts as verified (the probe
verify({}, {}) raises NotImplementedError, so verification is skipped);
otherwise the dupefinder verifies the two serialized specs. -/
def dupeVerified (m_dupefinder : DupeFinder) (thief_spec : SpecData)
    (potential_match : FwDoc) : Bool :=
  match m_dupefinder.verify with
  | none => true
  | some v => v thief_spec potential_match.spec.toData

/-- The body of the for-loop over potential duplicate matches.  On a verified
match the victim's launches that the thief does not already hold are appended
to the thief's launch list, and the stolen flag is raised iff any launch was
appended. -/
def stealLoop (fws : List FwDoc) (ls : List LaunchDoc) (gfs : Option GridFS)
    (m_dupefinder : DupeFinder) :
    List FwDoc → Bool × Firework → Except String (Bool × Firework)
  | [], acc => .ok acc
  | potential_match :: rest, acc =>
    let verified : Bool := dupeVerified m_dupefinder acc.2.spec.toData potential_match
    if verified then
      match get_fw_by_id fws ls gfs potential_match.fw_id with
      | .error e => .error e
      | .ok victim_fw =>
        let thief_launches := acc.2.launches
        let valuable_launches :=
          victim_fw.launches.filter (fun l => !thief_launches.contains l)
        stealLoop fws ls gfs m_dupefinder rest
          (acc.1 || !valuable_launches.isEmpty,
           { acc.2 with launches := acc.2.launches ++ valuable_launches })
    else stealLoop fws ls gfs m_dupefinder rest acc

/-- _steal_launches: when the thief is READY or RESERVED and declares a
spec._dupefinder, iterate over the candidates returned by the dupefinder's
query and merge verified victims' launches into the thief's list.  Returns
whether a steal occurred (False when the firework is unique). -/
def _steal_launches (fws : List FwDoc) (ls : List LaunchDoc) (gfs : Option GridFS)
    (thief_fw : Firework) : Except String (Bool × Firework) :=
  match thief_fw.spec.dupefinder with
  | none => .ok (false, thief_fw)
  | some m_dupefinder =>
    if thief_fw.state == "READY" || thief_fw.state == "RESERVED" then
      let m_query := m_dupefinder.query thief_fw.spec.toData
      stealLoop fws ls gfs m_dupefinder
        (fws.filter (fun d => m_query d.spec.toData)) (false, thief_fw)
    else .ok (false, thief_fw)

/-- Modelled from the spec: _check_fw_for_uniqueness is defined in
fireworks/core/launchpad.py, which is not under src/.  Spec section 4.2 step 4:
after duplicate detection runs, a candidate found to be a pure duplicate "is
still returned as reserved (its launches are merged with the victim's)", so
the check merges launches via _steal_launches and accepts the candidate in
every case. -/
def _check_fw_for_uniqueness (fws : List FwDoc) (ls : List LaunchDoc)
    (gfs : Option GridFS) (m_fw : Firework) : Except String (Bool × Firework) :=
  match _steal_launches fws ls gfs m_fw with
  | .error e => .error e
  | .ok (_stolen, fw) => .ok (true, fw)

/-! ### Checkout (_get_a_fw_to_run, lines 576-618) -/

/-- The while True loop of _get_a_fw_to_run, with explicit fuel (each
iteration reserves one candidate, so the loop terminates in reality).  With
checkout, one atomic find-one-and-update both selects the best READY match
and sets state = RESERVED, updated_on = now; without checkout the match is
only read.  No match returns None; a materialized candidate is returned when
the uniqueness check accepts it, otherwise the loop continues on the updated
collection. -/
def _get_a_fw_to_run_loop (ls : List LaunchDoc) (gfs : Option GridFS)
    (m_query : FwDoc → Bool) (lt : FwDoc → FwDoc → Bool) (now : Int)
    (checkout : Bool) :
    Nat → List FwDoc → Except String (Option Firework) × List FwDoc
  | 0, fws => (.error "out of fuel", fws)
  | fuel + 1, fws =>
    let step : Option FwDoc × List FwDoc :=
      if checkout then
        findOneAndUpdateFws fws m_query lt
          (fun d => { d with state := "RESERVED", updated_on := now })
      else (selectMin lt (fws.filter m_query), fws)
    match step with
    | (none, fws1) => (.ok none, fws1)
    | (some m_fw, fws1) =>
      match get_fw_by_id fws1 ls gfs m_fw.fw_id with
      | .error e => (.error e, fws1)
      | .ok fw =>
        match _check_fw_for_uniqueness fws1 ls gfs fw with
        | .error e => (.error e, fws1)
        | .ok (true, fw1) => (.ok (some fw1), fws1)
        | .ok (false, _) => _get_a_fw_to_run_loop ls gfs m_query lt now checkout fuel fws1

/-- _get_a_fw_to_run: build the effective query (the caller query with its
state key overwritten by READY, or, when a specific fw_id is requested, that
id in state READY or RESERVED), order by spec._priority descending then by
the configured created_on tie-break, and run the checkout loop. -/
def _get_a_fw_to_run (fws : List FwDoc) (ls : List LaunchDoc) (gfs : Option GridFS)
    (sort_fws : String) (now : Int) (query : Option CallerQuery)
    (fw_id : Option Nat) (checkout : Bool) (fuel : Nat) :
    Except String (Option Firework) × List FwDoc :=
  let base := match query with | none => emptyCallerQuery | some q => q
  let m_query : FwDoc → Bool :=
    match fw_id with
    | some i => fun d => d.fw_id == i && (d.state == "READY" || d.state == "RESERVED")
    | none => fun d => base.other d && d.state == "READY"
  _get_a_fw_to_run_loop ls gfs m_query (sortLt sort_fws) now checkout fuel fws

/-! ### Checkin (_checkin_fw, lines 726-777) -/

/-- A write of a launch document: pymongo raises DocumentTooLarge when the
document exceeds the store's per-document size limit, otherwise the document
replaces the one with its launch_id (upsert). -/
def writeLaunch (size_limit : Nat) (ls : List LaunchDoc) (doc : LaunchDoc) :
    Except String (List LaunchDoc) :=
  if launchDocSize doc > size_limit then .error "DocumentTooLarge"
  else .ok (findOneAndReplaceUpsert (fun l => l.launch_id == doc.launch_id) doc ls)

/-- _checkin_fw: address the launch via the firework's launches list at
launch_idx, write it, and on DocumentTooLarge fall back to the gridfs blob
store: a falsy action re-raises (the action is not the source of the error);
no configured blob store raises a fatal configuration error; otherwise the
action is stored in gridfs, replaced in the document by the gridfs_id
reference token, and the write is re-attempted exactly once.  Returns the
written launch together with every fw_id currently sharing the launch_id, the
updated launches collection and the updated blob store. -/
def _checkin_fw (fws : List FwDoc) (ls : List LaunchDoc) (gfs : Option GridFS)
    (size_limit : Nat) (m_fw : Firework) :
    Except String ((LaunchDoc × List Nat) × List LaunchDoc × Option GridFS) :=
  match fws.find? (fun d => d.fw_id == m_fw.fw_id) with
  | none => .error "TypeError: firework document is missing"
  | some fwdoc =>
    let launch_ids := fwdoc.launches
    match m_fw.launch_idx with
    | none => .ok ((m_fw.launch, []), ls, gfs)
    | some idx =>
      match pyIndex launch_ids idx with
      | none => .error "IndexError: launch_ids"
      | some lid =>
        let m_launch := { m_fw.launch with launch_id := lid }
        let ids_to_refresh :=
          (fws.filter (fun d => d.launches.contains lid)).map (fun d => d.fw_id)
        match writeLaunch size_limit ls m_launch with
        | .ok ls1 => .ok ((m_launch, ids_to_refresh), ls1, gfs)
        | .error e =>
          if falsyAction m_launch.action then .error e
          else
            match gfs with
            | none =>
              .error (e ++ ". Set GRIDFS_FALLBACK_COLLECTION in FW_config.yaml to a value different from None")
            | some g =>
              let put := g.put (actionToJson m_launch.action)
              let launch_db_dict := { m_launch with action := .gridfsRef put.1 }
              match writeLaunch size_limit ls launch_db_dict with
              | .ok ls1 => .ok ((launch_db_dict, ids_to_refresh), ls1, some put.2)
              | .error e1 => .error e1

/-! ### Conditional update (_update_fw, lines 779-826) -/

/-- Modelled from the spec: Firework.STATE_RANKS lives in
fireworks/core/firework.py, which is not under src/.  Spec section 3: the
states carry "a total order used to decide whether a new attempt supersedes
history (STATE_RANKS, roughly: DEFUSED/PAUSED/WAITING < READY/RESERVED/FIZZLED
<= 0 < RUNNING/OFFLINE-RUNNING < COMPLETED)".  OFFLINE-RESERVED is ranked with
RESERVED. -/
def STATE_RANKS : String → Int
  | "DEFUSED" => -1
  | "PAUSED" => -1
  | "WAITING" => -1
  | "READY" => 0
  | "RESERVED" => 0
  | "OFFLINE-RESERVED" => 0
  | "FIZZLED" => 0
  | "RUNNING" => 1
  | "OFFLINE-RUNNING" => 1
  | "COMPLETED" => 2
  | _ => -2

/-- The allowed_states argument of _update_fw: None, a single state string,
or a list of states. -/
inductive AllowedStates where
  | none
  | str (s : String)
  | list (l : List String)
deriving DecidableEq

/-- Whether a current state passes the allowed_states precondition. -/
def allowedPermits : AllowedStates → String → Bool
  | .none, _ => true
  | .str s, st => st == s
  | .list l, st => l.contains st

/-- _update_fw: conditionally transition a Firework and synchronize the
addressed launch.  A current state outside allowed_states returns None before
any store access.  Setting the state on the Firework object (the state setter
of fireworks/core/firework.py, outside src/) is modelled from the spec,
section 3: "updated_on: timestamps, updated on every transition".  When the
requested state outranks an inactive current state (rank <= 0), reset_launch
holds and only the firework document is written - the launch document is left
alone ("should NOT make a new launch in this function", line 824).  Otherwise
the firework document is updated (the query re-checks allowed_states in the
store) and the addressed launch document's state_history and trackers are
overwritten; a bad launch index raises after the firework write. -/
def _update_fw (fws : List FwDoc) (ls : List LaunchDoc) (m_fw : Firework)
    (state : Option String) (allowed_states : AllowedStates) (launch_idx : Int)
    (touch_history : Bool) (now : Int) :
    Except String (Option Firework) × List FwDoc × List LaunchDoc :=
  let rejected : Bool :=
    match allowed_states with
    | .list l => !l.contains m_fw.state
    | .str s => m_fw.state != s
    | .none => false
  if rejected then (.ok none, fws, ls)
  else
    let stateFilter : FwDoc → Bool :=
      match allowed_states with
      | .none => fun _ => true
      | .str s => fun d => d.state == s
      | .list l => fun d => l.contains d.state
    let query_dict : FwDoc → Bool := fun d => d.fw_id == m_fw.fw_id && stateFilter d
    let reset_launch : Bool :=
      state.isSome &&
        (decide (STATE_RANKS (state.getD m_fw.state) > STATE_RANKS m_fw.state) &&
         decide (STATE_RANKS m_fw.state ≤ 0))
    let m_fw1 : Firework :=
      if touch_history && state.isSome then
        { m_fw with state := state.getD m_fw.state, updated_on := now }
      else m_fw
    let command_dict_launch : LaunchDoc → LaunchDoc := fun l =>
      { l with state_history := m_fw1.launch.state_history,
               trackers := m_fw1.launch.trackers }
    let command_dict_fw : FwDoc → FwDoc := fun d =>
      { d with state := m_fw1.state, updated_on := m_fw1.updated_on }
    if !reset_launch then
      let lids := fws.find? query_dict
      let fws1 := updateFirst query_dict command_dict_fw fws
      match lids with
      | none => (.ok (some m_fw1), fws1, ls)
      | some p =>
        if p.launches.isEmpty then (.ok (some m_fw1), fws1, ls)
        else
          match pyIndex p.launches launch_idx with
          | none => (.error "Bad launch index", fws1, ls)
          | some lid =>
            (.ok (some m_fw1), fws1,
             updateFirst (fun l => l.launch_id == lid) command_dict_launch ls)
    else (.ok (some m_fw1), updateFirst query_dict command_dict_fw fws, ls)

/-! ### Timeout detection (_find_timeout_fws, lines 697-716) -/

/-- _find_timeout_fws: the deduplicated fw_ids of launches whose state equals
the given state and whose state_history holds an entry for that state
timestamped at or before now minus the expiration window (the code compares
isoformat strings with a lexicographic lte, which orders exactly like the
instants).  An extra query restricts to the fw_ids of matching firework
documents. -/
def _find_timeout_fws (fws : List FwDoc) (ls : List LaunchDoc) (now : Int)
    (state : String) (expiration_secs : Int) (query : Option (FwDoc → Bool)) :
    List Nat :=
  let cutoff := now - expiration_secs
  let lostruns : LaunchDoc → Bool := fun l =>
    l.state == state &&
      l.state_history.any (fun e => e.state == state && decide (e.updated_on ≤ cutoff))
  let lostruns : LaunchDoc → Bool :=
    match query with
    | none => lostruns
    | some q =>
      let fw_ids := (fws.filter q).map (fun d => d.fw_id)
      fun l => lostruns l && fw_ids.contains l.fw_id
  (((ls.filter lostruns).map (fun l => l.fw_id))).dedup

/-! ### Workflow replacement (_update_wf, lines 914-940) -/

/-- A document of the workflows collection: the member node set, the
cooperative lock flag, and the rest of the serialized workflow (links,
fw_states, metadata) as an opaque payload. -/
structure WfDoc where
  nodes : List Nat
  locked : Bool
  payload : Json

/-- The tail of _update_wf (lines 937-940): the reassignment bookkeeping
(lines 923-934) runs through _upsert_fws and Workflow methods outside src/ and
yields the serialized workflow wf_dict plus a surviving query_node; the
function then re-checks that a workflow holding query_node exists (raising
otherwise, line 936), forces locked = True on the outgoing document
("preserve the lock!", line 939), and replaces the workflow found by
query_node. -/
def _update_wf (wfs : List WfDoc) (query_node : Nat) (wf_dict : WfDoc) :
    Except String (List WfDoc) :=
  match wfs.find? (fun w => w.nodes.contains query_node) with
  | none => .error "BAD QUERY_NODE!"
  | some _ =>
    .ok (replaceFirst (fun w => w.nodes.contains query_node)
          { wf_dict with locked := true } wfs)

/-! ### Sample data used by the concrete witnesses -/

/-- A spec with none of the reserved keys set. -/
def sampleSpec : FwSpec :=
  { priority := none, fworker := none, category := none,
    dupefinder := none, payload := .null }

/-- A plain launch document. -/
def sampleLaunchDoc : LaunchDoc :=
  { launch_id := 7, fw_id := 1, state := "RUNNING",
    state_history := [], trackers := [], action := .null }

/-- A RUNNING firework holding one launch. -/
def sampleFwRunning : Firework :=
  { fw_id := 1, state := "RUNNING", created_on := 0, updated_on := 0,
    spec := sampleSpec, launches := [7], launch := sampleLaunchDoc,
    launch_idx := some 0 }

/-- A FIZZLED firework holding one launch. -/
def sampleFwFizzled : Firework :=
  { fw_id := 1, state := "FIZZLED", created_on := 0, updated_on := 0,
    spec := sampleSpec, launches := [7], launch := sampleLaunchDoc,
    launch_idx := some 0 }

/-- A launch whose inline action payload is large. -/
def overflowLaunch : LaunchDoc :=
  { launch_id := 0, fw_id := 1, state := "COMPLETED", state_history := [],
    trackers := [],
    action := .inline (.str "0123456789012345678901234567890123456789") }

/-- The firework owning overflowLaunch at launch index 0. -/
def overflowFw : Firework :=
  { fw_id := 1, state := "COMPLETED", created_on := 0, updated_on := 0,
    spec := sampleSpec, launches := [7], launch := overflowLaunch,
    launch_idx := some 0 }

/-- Its document in the fireworks collection. -/
def overflowFwDoc : FwDoc :=
  { fw_id := 1, state := "COMPLETED", created_on := 0, updated_on := 0,
    spec := sampleSpec, launches := [7] }

/-- An empty blob store. -/
def emptyGridFS : GridFS := { files := [], next_id := 0 }

/-- A dupefinder whose query matches every firework without a dupefinder and
which implements no verification. -/
def dupeDF : DupeFinder :=
  { query := fun _self cand => !cand.hasDupefinder, verify := none }

/-- A spec declaring dupeDF. -/
def thiefSpec : FwSpec :=
  { priority := none, fworker := none, category := none,
    dupefinder := some dupeDF, payload := .null }

/-- A COMPLETED victim document owning launch 7. -/
def victimDoc : FwDoc :=
  { fw_id := 2, state := "COMPLETED", created_on := 0, updated_on := 0,
    spec := sampleSpec, launches := [7] }

/-- The victim's launch document. -/
def victimLaunch : LaunchDoc :=
  { launch_id := 7, fw_id := 2, state := "COMPLETED",
    state_history := [], trackers := [], action := .null }

/-- A READY thief document declaring the dupefinder. -/
def thiefDoc : FwDoc :=
  { fw_id := 1, state := "READY", created_on := 0, updated_on := 0,
    spec := thiefSpec, launches := [] }

/-- The thief as an in-memory Firework in READY state. -/
def thiefFwReady : Firework :=
  { fw_id := 1, state := "READY", created_on := 0, updated_on := 0,
    spec := thiefSpec, launches := [],
    launch := { launch_id := 0, fw_id := 1, state := "READY",
                state_history := [], trackers := [], action := .null },
    launch_idx := none }

/-- A plain READY document. -/
def c1Doc : FwDoc :=
  { fw_id := 3, state := "READY", created_on := 0, updated_on := 0,
    spec := sampleSpec, launches := [] }

/-- The thief as materialized after its checkout (RESERVED, updated at 5). -/
def c2MFw : Firework :=
  { fw_id := 1, state := "RESERVED", created_on := 0, updated_on := 5,
    spec := thiefSpec, launches := [],
    launch := { launch_id := 0, fw_id := 1, state := "RESERVED",
                state_history := [], trackers := [], action := .null },
    launch_idx := none }

/-- The thief after stealing the victim's launch. -/
def c2Stolen : Firework := { c2MFw with launches := [7] }

/-! ### Helper lemmas about the store primitives -/

theorem mem_replaceFirst {α} {p : α → Bool} {new x : α} :
    ∀ {l : List α}, x ∈ replaceFirst p new l → x ∈ l ∨ x = new := by
  intro l h
  induction l with
  | nil => simp [replaceFirst] at h
  | cons a as ih =>
    by_cases hp : p a
    · simp only [replaceFirst, hp, if_true] at h
      rcases List.mem_cons.mp h with h1 | h1
      · exact Or.inr h1
      · exact Or.inl (List.mem_cons_of_mem a h1)
    · simp only [replaceFirst, hp, if_false] at h
      rcases List.mem_cons.mp h with h1 | h1
      · exact Or.inl (h1 ▸ List.mem_cons_self a as)
      · rcases ih h1 with h2 | h2
        · exact Or.inl (List.mem_cons_of_mem a h2)
        · exact Or.inr h2

theorem foldlMin_mem {α} (lt : α → α → Bool) :
    ∀ (xs : List α) (x : α),
      xs.foldl (fun b d => if lt d b then d else b) x ∈ x :: xs := by
  intro xs
  induction xs with
  | nil => intro x; simp
  | cons y ys ih =>
    intro x
    simp only [List.foldl_cons]
    split
    · exact List.mem_cons_of_mem x (ih y)
    · rcases List.mem_cons.mp (ih x) with h | h
      · rw [h]; exact List.mem_cons_self _ _
      · exact List.mem_cons_of_mem _ (List.mem_cons_of_mem _ h)

theorem foldlMin_not_lt {α} (lt : α → α → Bool)
    (hirr : ∀ a, lt a a = false)
    (htrans : ∀ a b c, lt a b = true → lt b c = true → lt a c = true)
    (hneg : ∀ a b c, lt a b = false → lt b c = false → lt a c = false) :
    ∀ (xs : List α) (x : α) (d : α), d ∈ x :: xs →
      lt d (xs.foldl (fun b e => if lt e b then e else b) x) = false := by
  intro xs
  induction xs with
  | nil =>
    intro x d hd
    rcases List.mem_cons.mp hd with h | h
    · subst h; simpa using hirr d
    · simp at h
  | cons y ys ih =>
    intro x d hd
    simp only [List.foldl_cons]
    split
    · -- lt y x holds: the accumulator becomes y
      next hy =>
      rcases List.mem_cons.mp hd with h | h
      · -- d = x: anything preceding the new accumulator would precede y
        subst h
        cases hxr : lt d (ys.foldl (fun b e => if lt e b then e else b) y) with
        | false => rfl
        | true =>
          have hyr := ih y y (List.mem_cons_self _ _)
          have := htrans y d _ hy hxr
          rw [hyr] at this
          exact this.symm
      · exact ih y d h
    · -- lt y x fails: the accumulator stays x
      next hy =>
      have hy1 : lt y x = false := by revert hy; cases lt y x <;> simp
      rcases List.mem_cons.mp hd with h | h
      · exact ih x d (by rw [h]; exact List.mem_cons_self _ _)
      · rcases List.mem_cons.mp h with h1 | h1
        · exact hneg d x _ (by rw [h1]; exact hy1) (ih x x (List.mem_cons_self _ _))
        · exact ih x d (List.mem_cons_of_mem _ h1)

theorem selectMin_mem {α} {lt : α → α → Bool} {l : List α} {r : α}
    (h : selectMin lt l = some r) : r ∈ l := by
  cases l with
  | nil => simp [selectMin] at h
  | cons x xs =>
    simp only [selectMin, Option.some.injEq] at h
    exact h ▸ foldlMin_mem lt xs x

theorem selectMin_not_lt {α} {lt : α → α → Bool}
    (hirr : ∀ a, lt a a = false)
    (htrans : ∀ a b c, lt a b = true → lt b c = true → lt a c = true)
    (hneg : ∀ a b c, lt a b = false → lt b c = false → lt a c = false)
    {l : List α} {r : α} (h : selectMin lt l = some r) :
    ∀ d ∈ l, lt d r = false := by
  cases l with
  | nil => simp [selectMin] at h
  | cons x xs =>
    intro d hd
    simp only [selectMin, Option.some.injEq] at h
    exact h ▸ foldlMin_not_lt lt hirr htrans hneg xs x d hd

/-! ### The checkout sort is a strict weak order -/

theorem priLt_irrefl (p : Option Int) : priLt p p = false := by
  cases p <;> simp [priLt]

theorem priLt_trans {a b c : Option Int} (h1 : priLt a b = true)
    (h2 : priLt b c = true) : priLt a c = true := by
  cases a <;> cases b <;> cases c <;> simp_all [priLt] <;> try omega

theorem priLt_neg {a b c : Option Int} (h1 : priLt a b = false)
    (h2 : priLt b c = false) : priLt a c = false := by
  cases a <;> cases b <;> cases c <;> simp_all [priLt] <;> try omega

theorem priLt_antisymm_eq {a b : Option Int} (h1 : priLt a b = false)
    (h2 : priLt b a = false) : a = b := by
  cases a <;> cases b <;> simp_all [priLt] <;> try omega

theorem tieLt_irrefl (cfg : String) (a : FwDoc) : tieLt cfg a a = false := by
  unfold tieLt; split_ifs <;> simp

theorem tieLt_trans {cfg : String} {a b c : FwDoc} (h1 : tieLt cfg a b = true)
    (h2 : tieLt cfg b c = true) : tieLt cfg a c = true := by
  unfold tieLt at *
  split_ifs at * <;> simp_all <;> omega

theorem tieLt_neg {cfg : String} {a b c : FwDoc} (h1 : tieLt cfg a b = false)
    (h2 : tieLt cfg b c = false) : tieLt cfg a c = false := by
  unfold tieLt at *
  split_ifs at * <;> simp_all <;> omega

theorem sortLt_char (cfg : String) (a b : FwDoc) :
    sortLt cfg a b = true ↔
      (priLt b.spec.priority a.spec.priority = true ∨
        (a.spec.priority = b.spec.priority ∧ tieLt cfg a b = true)) := by
  unfold sortLt
  split_ifs with h1 h2
  · simp [h1]
  · have h1f : priLt b.spec.priority a.spec.priority = false := by
      revert h1; cases priLt b.spec.priority a.spec.priority <;> simp
    constructor
    · intro h; exact absurd h (by simp)
    · rintro (h | ⟨heq, _⟩)
      · rw [h1f] at h; exact absurd h (by simp)
      · rw [heq, priLt_irrefl] at h2; exact absurd h2 (by simp)
  · have h1f : priLt b.spec.priority a.spec.priority = false := by
      revert h1; cases priLt b.spec.priority a.spec.priority <;> simp
    have h2f : priLt a.spec.priority b.spec.priority = false := by
      revert h2; cases priLt a.spec.priority b.spec.priority <;> simp
    have heq := priLt_antisymm_eq h2f h1f
    constructor
    · intro h; exact Or.inr ⟨heq, h⟩
    · rintro (h | ⟨_, htie⟩)
      · rw [h1f] at h; exact absurd h (by simp)
      · exact htie

theorem sortLt_false_char (cfg : String) (a b : FwDoc) :
    sortLt cfg a b = false ↔
      (priLt b.spec.priority a.spec.priority = false ∧
        (a.spec.priority = b.spec.priority → tieLt cfg a b = false)) := by
  have h := sortLt_char cfg a b
  constructor
  · intro hf
    constructor
    · cases hp : priLt b.spec.priority a.spec.priority
      · rfl
      · rw [h.mpr (Or.inl hp)] at hf; exact hf
    · intro heq
      cases ht : tieLt cfg a b
      · rfl
      · rw [h.mpr (Or.inr ⟨heq, ht⟩)] at hf; exact hf
  · rintro ⟨hp, ht⟩
    cases hs : sortLt cfg a b
    · rfl
    · rcases h.mp hs with h1 | ⟨heq, htie⟩
      · rw [hp] at h1; exact h1.symm
      · rw [ht heq] at htie; exact htie.symm

theorem sortLt_irrefl (cfg : String) (a : FwDoc) : sortLt cfg a a = false := by
  rw [sortLt_false_char]
  exact ⟨priLt_irrefl _, fun _ => tieLt_irrefl cfg a⟩

theorem sortLt_trans {cfg : String} {a b c : FwDoc} (h1 : sortLt cfg a b = true)
    (h2 : sortLt cfg b c = true) : sortLt cfg a c = true := by
  rw [sortLt_char] at *
  rcases h1 with hp1 | ⟨he1, ht1⟩
  · rcases h2 with hp2 | ⟨he2, _⟩
    · exact Or.inl (priLt_trans hp2 hp1)
    · exact Or.inl (he2 ▸ hp1)
  · rcases h2 with hp2 | ⟨he2, ht2⟩
    · exact Or.inl (by rw [he1]; exact hp2)
    · exact Or.inr ⟨he1.trans he2, tieLt_trans ht1 ht2⟩

theorem sortLt_neg {cfg : String} {a b c : FwDoc} (h1 : sortLt cfg a b = false)
    (h2 : sortLt cfg b c = false) : sortLt cfg a c = false := by
  rw [sortLt_false_char] at *
  obtain ⟨hp1, ht1⟩ := h1
  obtain ⟨hp2, ht2⟩ := h2
  refine ⟨priLt_neg hp2 hp1, fun heq => ?_⟩
  -- equal endpoint priorities force all three priorities equal
  have hpab : priLt a.spec.priority b.spec.priority = false := by rw [heq]; exact hp2
  have hab : a.spec.priority = b.spec.priority := priLt_antisymm_eq hpab hp1
  have hbc : b.spec.priority = c.spec.priority := by rw [← hab]; exact heq
  exact tieLt_neg (ht1 hab) (ht2 hbc)

/-! ### C3 -/

/-- C3: the claim says worker_query supports a category declared by the
worker configuration (the none marker, a single category string, or a list).
The code instead raises NameError for every truthy category: line 169
evaluates isinstance(self.fworker.get('category'), six.string_types) and the
module never imports six, so the spec._category clause is never built.  This
theorem evaluates the model of worker_query at a worker declaring the single
category "dft". -/
theorem worker_query_category_name_error :
    worker_query { name := "worker1", category := .str "dft",
                   query := emptyMongoQuery }
      = .error "NameError: name 'six' is not defined" := rfl

/-! ### C10 -/

/-- C10: every workflow document written by _update_wf has locked = True:
each document of the resulting collection either was already present or is
the freshly written one, whose locked flag the function forces to True before
the find-and-replace, so the structural edit never clears the cooperative
lock. -/
theorem update_wf_writes_locked (wfs : List WfDoc) (query_node : Nat)
    (wf_dict : WfDoc) (wfs1 : List WfDoc)
    (h : _update_wf wfs query_node wf_dict = .ok wfs1) :
    ∀ d ∈ wfs1, d ∈ wfs ∨ d.locked = true := by
  unfold _update_wf at h
  cases hf : wfs.find? (fun w => w.nodes.contains query_node) with
  | none => rw [hf] at h; exact absurd h (by simp)
  | some w =>
    rw [hf] at h
    simp only [Except.ok.injEq] at h
    intro d hd
    rcases mem_replaceFirst (h ▸ hd) with h1 | h1
    · exact Or.inl h1
    · exact Or.inr (by rw [h1])

/-- Witness for C10 at a one-workflow store: the written document carries
locked = true. -/
theorem update_wf_writes_locked_witness :
    ({ nodes := [1], locked := true, payload := Json.null } : WfDoc)
        ∈ [({ nodes := [1], locked := false, payload := Json.null } : WfDoc)] ∨
      ({ nodes := [1], locked := true, payload := Json.null } : WfDoc).locked = true :=
  update_wf_writes_locked
    [{ nodes := [1], locked := false, payload := Json.null }] 1
    { nodes := [1], locked := false, payload := Json.null }
    [{ nodes := [1], locked := true, payload := Json.null }]
    rfl
    { nodes := [1], locked := true, payload := Json.null }
    (List.mem_cons_self _ _)

/-! ### C6 -/

/-- C6: for a non-None allowed_states that the firework's current state does
not pass, _update_fw returns None and leaves both the fireworks and the
launches collections untouched - the conditional transition happens only when
the current state is allowed. -/
theorem update_fw_disallowed_noop
    (fws : List FwDoc) (ls : List LaunchDoc) (m_fw : Firework)
    (state : Option String) (allowed_states : AllowedStates) (launch_idx : Int)
    (touch_history : Bool) (now : Int)
    (hne : allowed_states ≠ AllowedStates.none)
    (hrej : allowedPermits allowed_states m_fw.state = false) :
    _update_fw fws ls m_fw state allowed_states launch_idx touch_history now =
      (.ok none, fws, ls) := by
  cases allowed_states with
  | none => exact absurd rfl hne
  | str s =>
    have hne2 : m_fw.state ≠ s := by simpa [allowedPermits] using hrej
    simp [_update_fw, hne2]
  | list l =>
    have hne2 : m_fw.state ∉ l := by simpa [allowedPermits] using hrej
    simp [_update_fw, hne2]

/-- Witness for C6: a RUNNING firework checked against allowed state
RESERVED is a no-op. -/
theorem update_fw_disallowed_noop_witness :
    _update_fw [] [] sampleFwRunning (some "COMPLETED")
        (AllowedStates.str "RESERVED") (-1) true 0 = (.ok none, [], []) :=
  update_fw_disallowed_noop [] [] sampleFwRunning (some "COMPLETED")
    (AllowedStates.str "RESERVED") (-1) true 0 (by decide) (by decide)

/-! ### C7 -/

/-- C7: when the requested state outranks the current state and the current
state is inactive (rank at most 0), _update_fw leaves the launches collection
exactly as it was: the existing launch document and its state_history are
never overwritten, so the new execution has to go through a fresh launch id
instead of mutating the old launch's history. -/
theorem update_fw_rerun_preserves_launches
    (fws : List FwDoc) (ls : List LaunchDoc) (m_fw : Firework)
    (state : Option String) (allowed_states : AllowedStates) (launch_idx : Int)
    (touch_history : Bool) (now : Int) (s : String)
    (hs : state = some s)
    (hrank : STATE_RANKS s > STATE_RANKS m_fw.state)
    (hinactive : STATE_RANKS m_fw.state ≤ 0) :
    (_update_fw fws ls m_fw state allowed_states launch_idx touch_history now).2.2
      = ls := by
  subst hs
  simp only [_update_fw]
  split
  · rfl
  · simp [hrank, hinactive]

/-- Witness for C7: rerunning a FIZZLED firework as RUNNING does not touch
the launches collection. -/
theorem update_fw_rerun_preserves_launches_witness :
    (_update_fw [] [sampleLaunchDoc] sampleFwFizzled (some "RUNNING")
        AllowedStates.none (-1) true 0).2.2 = [sampleLaunchDoc] :=
  update_fw_rerun_preserves_launches [] [sampleLaunchDoc] sampleFwFizzled
    (some "RUNNING") AllowedStates.none (-1) true 0 "RUNNING" rfl
    (by decide) (by decide)

/-! ### C8 -/

/-- C8: _find_timeout_fws returns exactly the deduplicated fw_ids of launches
whose current state is the given state and whose state_history holds an entry
for that state timestamped at or before now minus the expiration window,
restricted, when an extra query is given, to fireworks matching it.  In
particular a firework reserved at time T and never checked in is reported
with expiration 60 exactly once now reaches T + 60. -/
theorem find_timeout_fws_spec (fws : List FwDoc) (ls : List LaunchDoc)
    (now : Int) (state : String) (expiration_secs : Int)
    (query : Option (FwDoc → Bool)) :
    (_find_timeout_fws fws ls now state expiration_secs query).Nodup ∧
    ∀ x, x ∈ _find_timeout_fws fws ls now state expiration_secs query ↔
      ∃ l ∈ ls, l.fw_id = x ∧ l.state = state ∧
        (∃ e ∈ l.state_history, e.state = state ∧
            e.updated_on ≤ now - expiration_secs) ∧
        ∀ q, query = some q → ∃ f ∈ fws, q f = true ∧ f.fw_id = x := by
  constructor
  · exact List.nodup_dedup _
  · intro x
    unfold _find_timeout_fws
    cases query with
    | none =>
      simp only [List.mem_dedup, List.mem_map, List.mem_filter,
        Bool.and_eq_true, List.any_eq_true, beq_iff_eq, decide_eq_true_eq]
      constructor
      · rintro ⟨l, ⟨hl, hst, e, he, hes, het⟩, hid⟩
        exact ⟨l, hl, hid, hst, ⟨e, he, hes, het⟩, fun q hq => by cases hq⟩
      · rintro ⟨l, hl, hid, hst, ⟨e, he, hes, het⟩, -⟩
        exact ⟨l, ⟨hl, hst, e, he, hes, het⟩, hid⟩
    | some q =>
      simp only [List.mem_dedup, List.mem_map, List.mem_filter,
        Bool.and_eq_true, List.any_eq_true, beq_iff_eq, decide_eq_true_eq]
      constructor
      · rintro ⟨l, ⟨hl, ⟨hst, e, he, hes, het⟩, hin⟩, hid⟩
        have hin2 : l.fw_id ∈ (fws.filter q).map (fun d => d.fw_id) := by
          simpa using hin
        rcases List.mem_map.mp hin2 with ⟨f, hf, hfid⟩
        rcases List.mem_filter.mp hf with ⟨hfm, hfq⟩
        exact ⟨l, hl, hid, hst, ⟨e, he, hes, het⟩,
          fun q1 hq1 => by
            cases hq1
            exact ⟨f, hfm, hfq, by rw [hfid, hid]⟩⟩
      · rintro ⟨l, hl, hid, hst, ⟨e, he, hes, het⟩, hq⟩
        rcases hq q rfl with ⟨f, hf, hfq, hfid⟩
        refine ⟨l, ⟨hl, ⟨hst, e, he, hes, het⟩, ?_⟩, hid⟩
        have : l.fw_id ∈ (fws.filter q).map (fun d => d.fw_id) :=
          List.mem_map.mpr ⟨f, List.mem_filter.mpr ⟨hf, hfq⟩, by rw [hfid, hid]⟩
        simpa using this

/-! ### C4 / C5 helper lemmas -/

theorem writeLaunch_too_large (size_limit : Nat) (ls : List LaunchDoc)
    (doc : LaunchDoc) (h : launchDocSize doc > size_limit) :
    writeLaunch size_limit ls doc = .error "DocumentTooLarge" := by
  simp [writeLaunch, h]

theorem writeLaunch_fits (size_limit : Nat) (ls : List LaunchDoc)
    (doc : LaunchDoc) (h : launchDocSize doc ≤ size_limit) :
    writeLaunch size_limit ls doc =
      .ok (findOneAndReplaceUpsert (fun l => l.launch_id == doc.launch_id) doc ls) := by
  simp only [writeLaunch]
  rw [if_neg (by omega)]

/-! ### C4 -/

/-- C4: when writing the launch document fails with DocumentTooLarge and the
launch carries a non-empty action, _checkin_fw stores the action in the blob
store, replaces it in the document by the gridfs_id reference token and
re-attempts the write exactly once (the second equation is a single further
writeLaunch); with no blob store configured the size failure propagates as a
fatal configuration error, so recovery is transparent exactly when a blob
store is configured. -/
theorem checkin_fw_overflow
    (fws : List FwDoc) (ls : List LaunchDoc) (gfs : Option GridFS)
    (size_limit : Nat) (m_fw : Firework) (fwdoc : FwDoc) (idx : Int) (lid : Nat)
    (hfind : fws.find? (fun d => d.fw_id == m_fw.fw_id) = some fwdoc)
    (hidx : m_fw.launch_idx = some idx)
    (hlid : pyIndex fwdoc.launches idx = some lid)
    (hbig : launchDocSize { m_fw.launch with launch_id := lid } > size_limit)
    (hact : falsyAction m_fw.launch.action = false) :
    (gfs = none →
      _checkin_fw fws ls gfs size_limit m_fw =
        .error "DocumentTooLarge. Set GRIDFS_FALLBACK_COLLECTION in FW_config.yaml to a value different from None")
    ∧ ∀ g : GridFS, gfs = some g →
        launchDocSize { m_fw.launch with
                        launch_id := lid, action := ActionField.gridfsRef g.next_id }
            ≤ size_limit →
        _checkin_fw fws ls gfs size_limit m_fw =
          .ok (({ m_fw.launch with
                  launch_id := lid, action := ActionField.gridfsRef g.next_id },
                (fws.filter (fun d => d.launches.contains lid)).map (fun d => d.fw_id)),
               findOneAndReplaceUpsert (fun l => l.launch_id == lid)
                 { m_fw.launch with
                   launch_id := lid, action := ActionField.gridfsRef g.next_id } ls,
               some { files := g.files ++ [(g.next_id, actionToJson m_fw.launch.action)],
                      next_id := g.next_id + 1 }) := by
  constructor
  · intro hg
    subst hg
    simp only [_checkin_fw, hfind, hidx, hlid,
      writeLaunch_too_large size_limit ls _ hbig, hact]
    rfl
  · intro g hg hfit
    subst hg
    simp only [_checkin_fw, hfind, hidx, hlid,
      writeLaunch_too_large size_limit ls _ hbig, hact, GridFS.put,
      writeLaunch_fits size_limit ls _ hfit]
    rfl

/-- Witness for C4: a checkin whose launch document exceeds a 60-byte limit
overflows into the blob store and the rewritten document, carrying the
reference token, is stored. -/
theorem checkin_fw_overflow_witness :
    _checkin_fw [overflowFwDoc] [] (some emptyGridFS) 60 overflowFw =
      .ok ((({ overflowLaunch with
               launch_id := 7, action := ActionField.gridfsRef 0 }), [1]),
           findOneAndReplaceUpsert (fun l => l.launch_id == 7)
             ({ overflowLaunch with
                launch_id := 7, action := ActionField.gridfsRef 0 }) [],
           some { files := [(0, actionToJson overflowLaunch.action)],
                  next_id := 1 }) :=
  (checkin_fw_overflow [overflowFwDoc] [] (some emptyGridFS) 60 overflowFw
      overflowFwDoc 0 7 rfl rfl rfl (by decide) (by decide)).2
    emptyGridFS rfl (by decide)

/-! ### C5 -/

theorem find?_append_of_none {α} {p : α → Bool} {l1 l2 : List α}
    (h : l1.find? p = none) : (l1 ++ l2).find? p = l2.find? p := by
  induction l1 with
  | nil => simp
  | cons a l ih =>
    cases hpa : p a with
    | true => rw [List.find?_cons_of_pos _ hpa] at h; cases h
    | false =>
      have hpa2 : ¬p a = true := by simp [hpa]
      rw [List.find?_cons_of_neg _ hpa2] at h
      rw [List.cons_append, List.find?_cons_of_neg _ hpa2]
      exact ih h

/-- C5: overflow round-trip.  When the launch document exceeds the size
limit, its non-empty inline action is retrievable through
get_action_from_gridfs from the post-checkin blob store and equals the
original payload; when the document is under the limit it is stored inline
and the blob store is returned untouched (no blob-store call is made). -/
theorem checkin_fw_roundtrip
    (fws : List FwDoc) (ls : List LaunchDoc) (gfs : Option GridFS)
    (size_limit : Nat) (m_fw : Firework) (fwdoc : FwDoc) (idx : Int) (lid : Nat)
    (hfind : fws.find? (fun d => d.fw_id == m_fw.fw_id) = some fwdoc)
    (hidx : m_fw.launch_idx = some idx)
    (hlid : pyIndex fwdoc.launches idx = some lid) :
    (∀ (a : Json) (g : GridFS),
       launchDocSize { m_fw.launch with launch_id := lid } > size_limit →
       m_fw.launch.action = ActionField.inline a →
       pyFalsy a = false →
       gfs = some g →
       (∀ e ∈ g.files, e.1 ≠ g.next_id) →
       launchDocSize { m_fw.launch with
                       launch_id := lid, action := ActionField.gridfsRef g.next_id }
           ≤ size_limit →
       _checkin_fw fws ls gfs size_limit m_fw =
         .ok (({ m_fw.launch with
                 launch_id := lid, action := ActionField.gridfsRef g.next_id },
               (fws.filter (fun d => d.launches.contains lid)).map (fun d => d.fw_id)),
              findOneAndReplaceUpsert (fun l => l.launch_id == lid)
                ({ m_fw.launch with
                   launch_id := lid, action := ActionField.gridfsRef g.next_id }) ls,
              some { files := g.files ++ [(g.next_id, a)],
                     next_id := g.next_id + 1 }) ∧
       get_action_from_gridfs (ActionField.gridfsRef g.next_id)
           (some { files := g.files ++ [(g.next_id, a)],
                   next_id := g.next_id + 1 }) = .ok (some a))
    ∧ (launchDocSize { m_fw.launch with launch_id := lid } ≤ size_limit →
       _checkin_fw fws ls gfs size_limit m_fw =
         .ok (({ m_fw.launch with launch_id := lid },
               (fws.filter (fun d => d.launches.contains lid)).map (fun d => d.fw_id)),
              findOneAndReplaceUpsert (fun l => l.launch_id == lid)
                ({ m_fw.launch with launch_id := lid }) ls,
              gfs)) := by
  constructor
  · intro a g hbig haction hfalsy hg hfresh hfit
    subst hg
    constructor
    · have hw1 : writeLaunch size_limit ls ({ m_fw.launch with launch_id := lid })
          = .error "DocumentTooLarge" := writeLaunch_too_large _ _ _ hbig
      simp only [_checkin_fw, hfind, hidx, hlid, hw1]
      simp only [haction, falsyAction, hfalsy, Bool.false_eq_true, if_false,
        GridFS.put, writeLaunch_fits size_limit ls _ hfit]
      rfl
    · simp only [get_action_from_gridfs]
      rw [find?_append_of_none (List.find?_eq_none.mpr (by
        intro e he
        simpa using hfresh e he))]
      simp
  · intro hfit
    simp only [_checkin_fw, hfind, hidx, hlid,
      writeLaunch_fits size_limit ls _ hfit]

/-- Witness for C5 (inline branch): with a large limit the launch document is
stored inline and the blob store is untouched. -/
theorem checkin_fw_roundtrip_witness :
    _checkin_fw [overflowFwDoc] [] (some emptyGridFS) 200 overflowFw =
      .ok ((({ overflowLaunch with launch_id := 7 }), [1]),
           findOneAndReplaceUpsert (fun l => l.launch_id == 7)
             ({ overflowLaunch with launch_id := 7 }) [],
           some emptyGridFS) :=
  (checkin_fw_roundtrip [overflowFwDoc] [] (some emptyGridFS) 200 overflowFw
      overflowFwDoc 0 7 rfl rfl rfl).2 (by decide)

/-! ### Lemmas about materialization and the steal loop -/

theorem not_isEmpty_append {α} (l1 l2 : List α) :
    (!l1.isEmpty || !l2.isEmpty) = !(l1 ++ l2).isEmpty := by
  cases l1 <;> simp

theorem get_fw_by_id_fields {fws : List FwDoc} {ls : List LaunchDoc}
    {gfs : Option GridFS} {i : Nat} {li : Int} {fw : Firework}
    (h : get_fw_by_id fws ls gfs i li = .ok fw) :
    ∃ d, fws.find? (fun x => x.fw_id == i) = some d ∧
      fw.fw_id = d.fw_id ∧ fw.state = d.state ∧ fw.spec = d.spec ∧
      fw.launches = d.launches := by
  unfold get_fw_by_id at h
  split at h
  · cases h
  · next d heq =>
    refine ⟨d, heq, ?_⟩
    split at h
    · dsimp only at h
      split at h
      · simp only [Except.ok.injEq] at h; subst h; exact ⟨rfl, rfl, rfl, rfl⟩
      · split at h
        · cases h
        · split at h
          · cases h
          · split at h
            · cases h
            · simp only [Except.ok.injEq] at h; subst h; exact ⟨rfl, rfl, rfl, rfl⟩
    · simp only [Except.ok.injEq] at h; subst h; exact ⟨rfl, rfl, rfl, rfl⟩

theorem stealLoop_append {fws : List FwDoc} {ls : List LaunchDoc}
    {gfs : Option GridFS} {df : DupeFinder} :
    ∀ (rest : List FwDoc) (acc : Bool × Firework) (b : Bool) (fw : Firework),
      stealLoop fws ls gfs df rest acc = .ok (b, fw) →
      fw.fw_id = acc.2.fw_id ∧ fw.state = acc.2.state ∧ fw.spec = acc.2.spec ∧
      ∃ t, fw.launches = acc.2.launches ++ t ∧ b = (acc.1 || !t.isEmpty) := by
  intro rest
  induction rest with
  | nil =>
    intro acc b fw h
    obtain ⟨b0, fw0⟩ := acc
    simp only [stealLoop, Except.ok.injEq, Prod.mk.injEq] at h
    obtain ⟨hb, hfw⟩ := h
    subst hb; subst hfw
    exact ⟨rfl, rfl, rfl, [], by simp⟩
  | cons pm rest ih =>
    intro acc b fw h
    simp only [stealLoop] at h
    split at h
    · cases hv : get_fw_by_id fws ls gfs pm.fw_id with
      | error e => rw [hv] at h; cases h
      | ok victim =>
        rw [hv] at h
        obtain ⟨hid, hst, hsp, t, hl, hb⟩ := ih _ _ _ h
        dsimp only at hid hst hsp hl hb
        refine ⟨hid, hst, hsp,
          victim.launches.filter (fun l => !acc.2.launches.contains l) ++ t, ?_, ?_⟩
        · rw [hl, List.append_assoc]
        · rw [hb, Bool.or_assoc, not_isEmpty_append]
    · exact ih _ _ _ h

theorem stealLoop_nodup {fws : List FwDoc} {ls : List LaunchDoc}
    {gfs : Option GridFS} {df : DupeFinder}
    (hNL : ∀ d ∈ fws, d.launches.Nodup) :
    ∀ (rest : List FwDoc) (acc : Bool × Firework) (b : Bool) (fw : Firework),
      stealLoop fws ls gfs df rest acc = .ok (b, fw) →
      acc.2.launches.Nodup → fw.launches.Nodup := by
  intro rest
  induction rest with
  | nil =>
    intro acc b fw h hn
    obtain ⟨b0, fw0⟩ := acc
    simp only [stealLoop, Except.ok.injEq, Prod.mk.injEq] at h
    obtain ⟨-, hfw⟩ := h
    subst hfw; exact hn
  | cons pm rest ih =>
    intro acc b fw h hn
    simp only [stealLoop] at h
    split at h
    · cases hv : get_fw_by_id fws ls gfs pm.fw_id with
      | error e => rw [hv] at h; cases h
      | ok victim =>
        rw [hv] at h
        refine ih _ _ _ h ?_
        obtain ⟨dd, hdd, -, -, -, hls⟩ := get_fw_by_id_fields hv
        have hdmem : dd ∈ fws := List.mem_of_find?_eq_some hdd
        have hvn : victim.launches.Nodup := hls ▸ hNL dd hdmem
        refine List.Nodup.append hn (hvn.filter _) ?_
        intro x hx hxf
        have := (List.mem_filter.mp hxf).2
        simp only [Bool.not_eq_true'] at this
        exact absurd hx (by simpa using this)
    · exact ih _ _ _ h hn

theorem stealLoop_covers {fws : List FwDoc} {ls : List LaunchDoc}
    {gfs : Option GridFS} {df : DupeFinder} :
    ∀ (rest : List FwDoc) (acc : Bool × Firework) (b : Bool) (fw : Firework),
      stealLoop fws ls gfs df rest acc = .ok (b, fw) →
      ∀ pm ∈ rest, dupeVerified df acc.2.spec.toData pm = true →
        ∃ victim, get_fw_by_id fws ls gfs pm.fw_id = .ok victim ∧
          ∀ x ∈ victim.launches, x ∈ fw.launches := by
  intro rest
  induction rest with
  | nil => intro acc b fw h pm hpm; cases hpm
  | cons pm0 rest ih =>
    intro acc b fw h pm hpm hver
    simp only [stealLoop] at h
    split at h
    · cases hv : get_fw_by_id fws ls gfs pm0.fw_id with
      | error e => rw [hv] at h; cases h
      | ok victim0 =>
        rw [hv] at h
        rcases List.mem_cons.mp hpm with rfl | hpm1
        · refine ⟨victim0, hv, fun x hx => ?_⟩
          obtain ⟨-, -, -, t, hl, -⟩ := stealLoop_append _ _ _ _ h
          rw [hl]
          by_cases hmem : acc.2.launches.contains x
          · simp only [List.mem_append]
            left; left; simpa using hmem
          · simp only [List.mem_append]
            left; right
            exact List.mem_filter.mpr ⟨hx, by simpa using hmem⟩
        · exact ih _ _ _ h pm hpm1 hver
    · next hnv =>
      rcases List.mem_cons.mp hpm with rfl | hpm1
      · exact absurd hver hnv
      · exact ih _ _ _ h pm hpm1 hver

theorem stealLoop_sound {fws : List FwDoc} {ls : List LaunchDoc}
    {gfs : Option GridFS} {df : DupeFinder} :
    ∀ (rest : List FwDoc) (acc : Bool × Firework) (b : Bool) (fw : Firework),
      stealLoop fws ls gfs df rest acc = .ok (b, fw) →
      ∀ x ∈ fw.launches, x ∈ acc.2.launches ∨
        ∃ pm ∈ rest, dupeVerified df acc.2.spec.toData pm = true ∧
          ∃ victim, get_fw_by_id fws ls gfs pm.fw_id = .ok victim ∧
            x ∈ victim.launches := by
  intro rest
  induction rest with
  | nil =>
    intro acc b fw h x hx
    obtain ⟨b0, fw0⟩ := acc
    simp only [stealLoop, Except.ok.injEq, Prod.mk.injEq] at h
    obtain ⟨-, hfw⟩ := h
    subst hfw; exact Or.inl hx
  | cons pm0 rest ih =>
    intro acc b fw h x hx
    simp only [stealLoop] at h
    split at h
    · next hver0 =>
      cases hv : get_fw_by_id fws ls gfs pm0.fw_id with
      | error e => rw [hv] at h; cases h
      | ok victim0 =>
        rw [hv] at h
        rcases ih _ _ _ h x hx with h1 | ⟨pm, hpm, hver, victim, hvv, hxv⟩
        · rcases List.mem_append.mp h1 with h2 | h2
          · exact Or.inl h2
          · exact Or.inr ⟨pm0, List.mem_cons_self _ _, hver0,
              victim0, hv, (List.mem_filter.mp h2).1⟩
        · exact Or.inr ⟨pm, List.mem_cons_of_mem _ hpm, hver, victim, hvv, hxv⟩
    · rcases ih _ _ _ h x hx with h1 | ⟨pm, hpm, hver, victim, hvv, hxv⟩
      · exact Or.inl h1
      · exact Or.inr ⟨pm, List.mem_cons_of_mem _ hpm, hver, victim, hvv, hxv⟩

theorem steal_launches_append {fws : List FwDoc} {ls : List LaunchDoc}
    {gfs : Option GridFS} {thief : Firework} {b : Bool} {fw : Firework}
    (h : _steal_launches fws ls gfs thief = .ok (b, fw)) :
    fw.fw_id = thief.fw_id ∧ fw.state = thief.state ∧ fw.spec = thief.spec ∧
    ∃ t, fw.launches = thief.launches ++ t ∧ b = !t.isEmpty := by
  unfold _steal_launches at h
  split at h
  · simp only [Except.ok.injEq, Prod.mk.injEq] at h
    obtain ⟨hb, hfw⟩ := h
    subst hb; subst hfw
    exact ⟨rfl, rfl, rfl, [], by simp, by simp⟩
  · split at h
    · obtain ⟨hid, hst, hsp, t, hl, hb⟩ := stealLoop_append _ _ _ _ h
      exact ⟨hid, hst, hsp, t, hl, by simpa using hb⟩
    · simp only [Except.ok.injEq, Prod.mk.injEq] at h
      obtain ⟨hb, hfw⟩ := h
      subst hb; subst hfw
      exact ⟨rfl, rfl, rfl, [], by simp, by simp⟩

/-! ### C9 -/

/-- C9: _steal_launches on a READY or RESERVED thief with a dupefinder.
The launch list is only ever appended to (references, never content); the
returned flag is True exactly when at least one launch was stolen (False when
the firework is unique); the merged list stays deduplicated by launch_id;
every verified victim's launches all end up in the thief's list (verification
counting as passed when the dupefinder implements no verify); and every
launch in the final list either was the thief's already or belongs to a
victim matched by the dupefinder's query and verified. -/
theorem steal_launches_spec
    (fws : List FwDoc) (ls : List LaunchDoc) (gfs : Option GridFS)
    (thief : Firework) (df : DupeFinder) (stolen : Bool) (thief1 : Firework)
    (hdf : thief.spec.dupefinder = some df)
    (hstate : thief.state = "READY" ∨ thief.state = "RESERVED")
    (hNL : ∀ d ∈ fws, d.launches.Nodup)
    (hTN : thief.launches.Nodup)
    (hok : _steal_launches fws ls gfs thief = .ok (stolen, thief1)) :
    (∃ t, thief1.launches = thief.launches ++ t) ∧
    (stolen = true ↔ thief1.launches ≠ thief.launches) ∧
    thief1.launches.Nodup ∧
    (∀ pm ∈ fws, df.query thief.spec.toData pm.spec.toData = true →
       dupeVerified df thief.spec.toData pm = true →
       ∃ victim, get_fw_by_id fws ls gfs pm.fw_id = .ok victim ∧
         ∀ x ∈ victim.launches, x ∈ thief1.launches) ∧
    (∀ x ∈ thief1.launches, x ∈ thief.launches ∨
       ∃ pm ∈ fws, df.query thief.spec.toData pm.spec.toData = true ∧
         dupeVerified df thief.spec.toData pm = true ∧
         ∃ victim, get_fw_by_id fws ls gfs pm.fw_id = .ok victim ∧
           x ∈ victim.launches) := by
  have hb : (thief.state == "READY" || thief.state == "RESERVED") = true := by
    rcases hstate with h | h <;> simp [h]
  unfold _steal_launches at hok
  rw [hdf] at hok
  simp only [hb, if_true] at hok
  have happ := stealLoop_append _ _ _ _ hok
  obtain ⟨-, -, -, t, hl, hbt⟩ := happ
  constructor
  · exact ⟨t, hl⟩
  constructor
  · have ht : (thief.launches ++ t = thief.launches) ↔ t = [] := by
      constructor
      · intro he
        have := congrArg List.length he
        simp only [List.length_append] at this
        exact List.eq_nil_of_length_eq_zero (by omega)
      · rintro rfl; simp
    constructor
    · intro hs heq
      rw [hbt] at hs
      have ht0 : t = [] := ht.mp (by rw [← hl]; exact heq)
      rw [ht0] at hs
      simp at hs
    · intro hne
      rw [hbt]
      cases t with
      | nil => exact absurd (by rw [hl]; simp) hne
      | cons y ys => simp
  constructor
  · exact stealLoop_nodup hNL _ _ _ _ hok hTN
  constructor
  · intro pm hpm hq hver
    exact stealLoop_covers _ _ _ _ hok pm
      (List.mem_filter.mpr ⟨hpm, hq⟩) hver
  · intro x hx
    rcases stealLoop_sound _ _ _ _ hok x hx with h1 | ⟨pm, hpm, hver, victim, hv, hxv⟩
    · exact Or.inl h1
    · obtain ⟨hpm1, hq1⟩ := List.mem_filter.mp hpm
      exact Or.inr ⟨pm, hpm1, hq1, hver, victim, hv, hxv⟩

/-- Witness for C9: after stealing from the completed victim, the thief's
launch list is [7] and stays deduplicated. -/
theorem steal_launches_spec_witness :
    ({ thiefFwReady with launches := [7] } : Firework).launches.Nodup :=
  (steal_launches_spec [thiefDoc, victimDoc] [victimLaunch] none thiefFwReady
      dupeDF true ({ thiefFwReady with launches := [7] }) rfl (Or.inl rfl)
      (by decide) (by decide) rfl).2.2.1

theorem check_uniqueness_true {fws : List FwDoc} {ls : List LaunchDoc}
    {gfs : Option GridFS} {m_fw : Firework} {b : Bool} {fw : Firework}
    (h : _check_fw_for_uniqueness fws ls gfs m_fw = .ok (b, fw)) : b = true := by
  unfold _check_fw_for_uniqueness at h
  cases hs : _steal_launches fws ls gfs m_fw with
  | error e => rw [hs] at h; cases h
  | ok p =>
    obtain ⟨pb, pf⟩ := p
    rw [hs] at h
    simp only [Except.ok.injEq, Prod.mk.injEq] at h
    exact h.1.symm

theorem find?_updateFirst_key {α} (f : α → α) (key : α → Nat)
    (hf : ∀ x, key (f x) = key x) :
    ∀ (l : List α) (d : α), (l.map key).Nodup → d ∈ l →
      (updateFirst (fun x => key x == key d) f l).find?
          (fun x => key x == key d) = some (f d) := by
  intro l
  induction l with
  | nil => intro d _ hd; cases hd
  | cons a as ih =>
    intro d hnd hd
    simp only [updateFirst]
    by_cases hk : (key a == key d) = true
    · have hda : d = a := by
        rcases List.mem_cons.mp hd with h | h
        · exact h
        · exfalso
          simp only [List.map_cons] at hnd
          have hmem : key d ∈ as.map key := List.mem_map.mpr ⟨d, h, rfl⟩
          have hka : key a = key d := by simpa using hk
          exact (List.nodup_cons.mp hnd).1 (hka ▸ hmem)
      subst hda
      rw [if_pos hk]
      exact List.find?_cons_of_pos _ (by simp [hf])
    · rw [if_neg hk]
      have hd2 : d ∈ as := by
        rcases List.mem_cons.mp hd with h | h
        · exfalso; rw [h] at hk; simp at hk
        · exact h
      rw [@List.find?_cons_of_neg α (fun x => key x == key d) a
            (updateFirst (fun x => key x == key d) f as) hk]
      simp only [List.map_cons] at hnd
      exact ih d (List.nodup_cons.mp hnd).2 hd2

/-! ### C1 -/

/-- C1: for a checkout (_get_a_fw_to_run with checkout=True) without a
specific fw_id, the effective query selects only READY fireworks (the
caller's state key is overwritten); the document handed out is a matching one
that no other matching document strictly precedes under the ordering
spec._priority descending then created_on per the SORT_FWS configuration
(FIFO ascending / FILO descending); the post-checkout collection is exactly
the pre-collection with that one document's state set to RESERVED and its
updated_on set to now - a single atomic find-and-modify; and when no document
matches, the result is None and the collection is untouched. -/
theorem get_a_fw_to_run_checkout_spec
    (fws : List FwDoc) (ls : List LaunchDoc) (gfs : Option GridFS)
    (sort_fws : String) (now : Int) (query : Option CallerQuery) (fuel : Nat) :
    ((fws.filter (fun x =>
        (match query with | none => emptyCallerQuery | some q => q).other x &&
          x.state == "READY")) = [] →
      _get_a_fw_to_run fws ls gfs sort_fws now query none true (fuel + 1) =
        (.ok none, fws)) ∧
    (∀ d, selectMin (sortLt sort_fws)
        (fws.filter (fun x =>
          (match query with | none => emptyCallerQuery | some q => q).other x &&
            x.state == "READY")) = some d →
      d ∈ fws ∧ d.state = "READY" ∧
      (match query with | none => emptyCallerQuery | some q => q).other d = true ∧
      (∀ e ∈ fws.filter (fun x =>
          (match query with | none => emptyCallerQuery | some q => q).other x &&
            x.state == "READY"), sortLt sort_fws e d = false) ∧
      (_get_a_fw_to_run fws ls gfs sort_fws now query none true (fuel + 1)).2 =
        updateFirst (fun x => x.fw_id == d.fw_id)
          (fun x => { x with state := "RESERVED", updated_on := now }) fws) := by
  constructor
  · intro hc
    unfold _get_a_fw_to_run _get_a_fw_to_run_loop findOneAndUpdateFws
    dsimp only
    rw [hc]
    simp [selectMin]
  · intro d hsel
    have hdmem := selectMin_mem hsel
    obtain ⟨hdf, hcond⟩ := List.mem_filter.mp hdmem
    obtain ⟨hother, hready⟩ := Bool.and_eq_true_iff.mp hcond
    refine ⟨hdf, by simpa using hready, hother, ?_, ?_⟩
    · exact fun e he => selectMin_not_lt (sortLt_irrefl sort_fws)
        (fun a b c => sortLt_trans) (fun a b c => sortLt_neg) hsel e he
    · unfold _get_a_fw_to_run _get_a_fw_to_run_loop findOneAndUpdateFws
      dsimp only
      rw [hsel]
      simp only [reduceIte]
      cases hget : get_fw_by_id
          (updateFirst (fun x => x.fw_id == d.fw_id)
            (fun x => { x with state := "RESERVED", updated_on := now }) fws)
          ls gfs d.fw_id with
      | error e => rfl
      | ok fw =>
        dsimp only
        cases hchk : _check_fw_for_uniqueness
            (updateFirst (fun x => x.fw_id == d.fw_id)
              (fun x => { x with state := "RESERVED", updated_on := now }) fws)
            ls gfs fw with
        | error e => rfl
        | ok p =>
          obtain ⟨pb, pf⟩ := p
          have hb := check_uniqueness_true hchk
          subst hb
          rfl

/-- Witness for C1: checking out the only READY firework flips exactly its
document to RESERVED with the new timestamp. -/
theorem get_a_fw_to_run_checkout_spec_witness :
    (_get_a_fw_to_run [c1Doc] [] none "FIFO" 9 none none true 1).2 =
      updateFirst (fun x => x.fw_id == c1Doc.fw_id)
        (fun x => { x with state := "RESERVED", updated_on := 9 }) [c1Doc] :=
  ((get_a_fw_to_run_checkout_spec [c1Doc] [] none "FIFO" 9 none 0).2
    c1Doc rfl).2.2.2.2

/-! ### C2 -/

/-- C2: a checked-out candidate that the duplicate check identifies as a pure
duplicate (the steal reports at least one launch merged from a victim) is
still returned by the checkout - in RESERVED state, with the merged launch
list - rather than being skipped for a different candidate. -/
theorem get_a_fw_to_run_duplicate_returned
    (fws : List FwDoc) (ls : List LaunchDoc) (gfs : Option GridFS)
    (sort_fws : String) (now : Int) (query : Option CallerQuery) (fuel : Nat)
    (d : FwDoc) (m_fw stolen_fw : Firework)
    (hnodup : (fws.map (fun x => x.fw_id)).Nodup)
    (hsel : selectMin (sortLt sort_fws)
        (fws.filter (fun x =>
          (match query with | none => emptyCallerQuery | some q => q).other x &&
            x.state == "READY")) = some d)
    (hget : get_fw_by_id
        (updateFirst (fun x => x.fw_id == d.fw_id)
          (fun x => { x with state := "RESERVED", updated_on := now }) fws)
        ls gfs d.fw_id = .ok m_fw)
    (hsteal : _steal_launches
        (updateFirst (fun x => x.fw_id == d.fw_id)
          (fun x => { x with state := "RESERVED", updated_on := now }) fws)
        ls gfs m_fw = .ok (true, stolen_fw)) :
    _get_a_fw_to_run fws ls gfs sort_fws now query none true (fuel + 1) =
      (.ok (some stolen_fw),
       updateFirst (fun x => x.fw_id == d.fw_id)
         (fun x => { x with state := "RESERVED", updated_on := now }) fws) ∧
    stolen_fw.fw_id = d.fw_id ∧
    stolen_fw.state = "RESERVED" ∧
    (∃ t, t ≠ [] ∧ stolen_fw.launches = m_fw.launches ++ t) := by
  have hchk : _check_fw_for_uniqueness
      (updateFirst (fun x => x.fw_id == d.fw_id)
        (fun x => { x with state := "RESERVED", updated_on := now }) fws)
      ls gfs m_fw = .ok (true, stolen_fw) := by
    unfold _check_fw_for_uniqueness
    rw [hsteal]
  have hdfws : d ∈ fws := (List.mem_filter.mp (selectMin_mem hsel)).1
  have hfind : (updateFirst (fun x => x.fw_id == d.fw_id)
        (fun x => { x with state := "RESERVED", updated_on := now }) fws).find?
        (fun x => x.fw_id == d.fw_id)
      = some ({ d with state := "RESERVED", updated_on := now }) :=
    find?_updateFirst_key
      (fun x => { x with state := "RESERVED", updated_on := now })
      (fun x => x.fw_id) (fun x => rfl) fws d hnodup hdfws
  obtain ⟨dd, hdd, hfid, hfst, -, -⟩ := get_fw_by_id_fields hget
  rw [hfind] at hdd
  have hdd2 : dd = { d with state := "RESERVED", updated_on := now } :=
    (Option.some.injEq _ _ ▸ hdd).symm
  obtain ⟨hsid, hsst, -, t, hsl, hbt⟩ := steal_launches_append hsteal
  refine ⟨?_, ?_, ?_, ?_⟩
  · unfold _get_a_fw_to_run _get_a_fw_to_run_loop findOneAndUpdateFws
    dsimp only
    rw [hsel]
    simp only [reduceIte]
    rw [hget]
    dsimp only
    rw [hchk]
  · rw [hsid, hfid, hdd2]
  · rw [hsst, hfst, hdd2]
  · refine ⟨t, ?_, hsl⟩
    intro ht0
    rw [ht0] at hbt
    simp at hbt

/-- Witness for C2: checking out the READY thief next to a COMPLETED
duplicate victim returns the thief itself, reserved, holding the victim's
launch. -/
theorem get_a_fw_to_run_duplicate_returned_witness :
    _get_a_fw_to_run [thiefDoc, victimDoc] [victimLaunch] none "FIFO" 5
        none none true 1 =
      (.ok (some c2Stolen),
       updateFirst (fun x => x.fw_id == thiefDoc.fw_id)
         (fun x => { x with state := "RESERVED", updated_on := 5 })
         [thiefDoc, victimDoc]) :=
  (get_a_fw_to_run_duplicate_returned [thiefDoc, victimDoc] [victimLaunch]
      none "FIFO" 5 none 0 thiefDoc c2MFw c2Stolen (by decide) rfl rfl rfl).1
